import Mathlib

/-!
Verification development for the Financial-Analysis-Forge income-statement
extraction pipeline.

The Python sources embedded here:
* `src/main/handlers/income_statement_table.py` — long-form parser
  (`_norm`, `_clean_cell`, `_parse_numeric`, `_find_income_statement_start`,
  `_build_period_labels`, `_extract_periods_and_colmap`,
  `parse_income_statement_tables_from_path`);
* `src/main/handlers/income_statement.py` — nested-dict parser; its helpers
  `_norm`, `_clean_cell`, `_parse_numeric`, `_find_income_statement_start`,
  `_build_period_labels` are textually identical to the table module's, and
  `_extract_col_to_period` is textually identical to the first half of
  `_extract_periods_and_colmap`, so those definitions are shared below;
* `src/app.py` / `src/main/app/web/income_statement.py` — `_best_metric`
  (the two copies are textually identical).

Spreadsheet cells are modelled by `Cell` (empty/NaN/text/int/float), Python
floats by `PyFloat` (finite rational, NaN, signed infinity; finite values are
kept as exact rationals — none of the verified properties depend on IEEE
rounding), and Python `str` operations are re-implemented over `List Char`
so that everything evaluates inside the kernel.
-/

namespace Forge

/-! ### Python string primitives (modelled over `List Char`) -/

/-- Model of Python `str.strip()` (whitespace on both ends). -/
def pyStrip (s : String) : String :=
  ⟨((s.data.dropWhile Char.isWhitespace).reverse.dropWhile Char.isWhitespace).reverse⟩

/-- Model of Python `str.lower()` (ASCII-adequate). -/
def pyLower (s : String) : String :=
  ⟨s.data.map Char.toLower⟩

/-- Split on whitespace runs, discarding empty pieces: Python `str.split()`.
`acc` holds the (reversed) current word. -/
def splitWsAux (acc : List Char) : List Char → List (List Char)
  | [] => if acc.isEmpty then [] else [acc.reverse]
  | c :: cs =>
    if c.isWhitespace then
      if acc.isEmpty then splitWsAux [] cs else acc.reverse :: splitWsAux [] cs
    else splitWsAux (c :: acc) cs

/-- Python `" ".join(s.strip().lower().split())`: the label-normalisation core
of `_norm`. Stripping is subsumed by the whitespace split. -/
def normStr (s : String) : String :=
  String.intercalate " " ((splitWsAux [] (s.data.map Char.toLower)).map String.mk)

/-- Python substring test `needle in hay`. -/
def hasSubstring (needle : List Char) : List Char → Bool
  | [] => needle.isEmpty
  | c :: t => needle.isPrefixOf (c :: t) || hasSubstring needle t

/-! ### Cells and Python float values -/

/-- One spreadsheet cell as the Python handlers see it: `empty` is Python
`None`, `nanF` a float NaN (`pd.isna`), `str`/`int`/`real` text and finite
numbers, `infF` a float infinity. -/
inductive Cell where
  | empty
  | str (s : String)
  | int (n : ℤ)
  | real (q : ℚ)
  | nanF
  | infF (neg : Bool)
deriving DecidableEq

/-- A Python `float` result: finite values are exact rationals. -/
inductive PyFloat where
  | finite (q : ℚ)
  | nanV
  | infV (neg : Bool)
deriving DecidableEq

/-- Python unary minus on a float. -/
def PyFloat.pyNeg : PyFloat → PyFloat
  | .finite q => .finite (-q)
  | .nanV => .nanV
  | .infV b => .infV (!b)

/-- Model of Python `str(value)`. Exact for `None`, text, ints, NaN and
infinities; for non-integral finite floats Python prints the shortest
round-tripping decimal, which has no exact rational analogue, so a fraction
form stands in (no verified property evaluates it on such values). -/
def strOfCell : Cell → String
  | .empty => "None"
  | .str s => s
  | .int n => toString n
  | .real q => if q.den = 1 then toString q.num ++ ".0" else toString q.num ++ "/" ++ toString q.den
  | .nanF => "nan"
  | .infF b => if b then "-inf" else "inf"

/-- Python truthiness of a (cleaned) cell value: `bool(None)` is false, a
string is truthy iff non-empty, a number iff non-zero, NaN and infinities are
truthy. -/
def Cell.truthy : Cell → Bool
  | .empty => false
  | .str s => !s.data.isEmpty
  | .int n => decide (n ≠ 0)
  | .real q => decide (q ≠ 0)
  | .nanF => true
  | .infF _ => true

/-- Truthiness of an `Option Cell` (Python `None` is falsy). -/
def truthyOpt : Option Cell → Bool
  | none => false
  | some c => c.truthy

/-- Python `str(...)` applied to an optional cell (`str(None) = "None"`). -/
def strOfOpt : Option Cell → String
  | none => "None"
  | some c => strOfCell c

/-! ### `_norm` and `_clean_cell` (identical in both handler modules) -/

/-- Embedding of `_norm`: `None`/NaN go to `""`, otherwise
`" ".join(str(text).strip().lower().split())`. -/
def normCell : Cell → String
  | .empty => ""
  | .nanF => ""
  | v => normStr (strOfCell v)

/-- Embedding of `_norm` applied to an `Option Cell` (Python passes the result
of `_clean_cell`, which may be `None`). -/
def normOpt : Option Cell → String
  | none => ""
  | some c => normCell c

/-- Embedding of `_clean_cell`: `None`/NaN become `none`; strings are
stripped, with `""` and `"-"` becoming `none`; any other value passes through
unchanged. -/
def cleanCell : Cell → Option Cell
  | .empty => none
  | .nanF => none
  | .str s =>
    let t := pyStrip s
    if t = "" ∨ t = "-" then none else some (.str t)
  | v => some v

/-! ### Python `float(string)` -/

/-- Digit-run scanner used by the `float(...)` model: consumes
`digit ( underscore? digit )*`, accumulating the value and the digit count.
A leading, lone or trailing underscore is left unconsumed (the overall
parse then fails on the leftover input, as CPython does). -/
def digitRunAux (v k : ℕ) : List Char → ℕ × ℕ × List Char
  | [] => (v, k, [])
  | [c] =>
    if c.isDigit then (10 * v + (c.toNat - 48), k + 1, [])
    else (v, k, [c])
  | c :: d :: cs2 =>
    if c.isDigit then digitRunAux (10 * v + (c.toNat - 48)) (k + 1) (d :: cs2)
    else if c = '_' then
      if d.isDigit && k != 0 then digitRunAux (10 * v + (d.toNat - 48)) (k + 1) cs2
      else (v, k, c :: d :: cs2)
    else (v, k, c :: d :: cs2)

/-- Unsigned decimal part of Python `float(...)`:
`digits [. digits] [e [sign] digits]`, at least one digit before the
exponent, input fully consumed. -/
def parseUnsignedDec (cs : List Char) : Option ℚ :=
  let ires := digitRunAux 0 0 cs
  let fres :=
    match ires.2.2 with
    | '.' :: t => digitRunAux 0 0 t
    | r1 => (0, 0, r1)
  if ires.2.1 + fres.2.1 = 0 then none
  else
    let mant : ℚ := (ires.1 : ℚ) + (fres.1 : ℚ) / ((10 : ℚ) ^ fres.2.1)
    match fres.2.2 with
    | [] => some mant
    | 'e' :: t =>
      let es : Bool × List Char :=
        match t with
        | '+' :: u => (false, u)
        | '-' :: u => (true, u)
        | u => (false, u)
      let eres := digitRunAux 0 0 es.2
      if eres.2.1 = 0 then none
      else if !eres.2.2.isEmpty then none
      else some (if es.1 then mant / ((10 : ℚ) ^ eres.1) else mant * ((10 : ℚ) ^ eres.1))
    | _ => none

/-- Model of Python `float(s)` on strings: strip whitespace, optional sign,
then `inf`/`infinity`/`nan` (case-insensitive) or a decimal literal. -/
def pyFloatOfString (s : String) : Option PyFloat :=
  let signed : Bool × List Char :=
    match (pyStrip s).data.map Char.toLower with
    | '+' :: t => (false, t)
    | '-' :: t => (true, t)
    | t => (false, t)
  if signed.2 = "inf".data ∨ signed.2 = "infinity".data then some (.infV signed.1)
  else if signed.2 = "nan".data then some .nanV
  else
    match parseUnsignedDec signed.2 with
    | some q => some (.finite (if signed.1 then -q else q))
    | none => none

/-! ### `_parse_numeric` (identical in both handler modules) -/

/-- Textual branch of `_parse_numeric`: strip, reject `""`, treat a
surrounding `(...)` pair as a negative sign, delete commas, then
`float(...)`. -/
def parseNumericText (s0 : String) : Option PyFloat :=
  let s := pyStrip s0
  if s = "" then none
  else
    let neg :=
      (match s.data with | '(' :: _ => true | _ => false) &&
      (match s.data.getLast? with | some ')' => true | _ => false)
    let s1 := if neg then String.mk ((s.data.drop 1).dropLast) else s
    let s2 := String.mk (s1.data.filter (fun c => c ≠ ','))
    match pyFloatOfString s2 with
    | some f => some (if neg then f.pyNeg else f)
    | none => none

/-- Embedding of `_parse_numeric`: `None` gives `none`; a non-NaN `int`/`float`
value is returned as `float(value)` unchanged; everything else (text, and a
NaN float, whose `str()` is `"nan"`) goes through the textual branch. -/
def parseNumeric : Cell → Option PyFloat
  | .empty => none
  | .int n => some (.finite n)
  | .real q => some (.finite q)
  | .infF b => some (.infV b)
  | .str s => parseNumericText s
  | .nanF => parseNumericText "nan"

/-! ### List utilities shared by the embeddings -/

/-- Python `range(s, s + n)` as a list. -/
def natRange : ℕ → ℕ → List ℕ
  | _, 0 => []
  | s, n + 1 => s :: natRange (s + 1) n

/-- Index of the first `i < n` with `p i = true` — the shape of the Python
`for i in range(n): if p(i): return i` loops. -/
def firstIdx (p : ℕ → Bool) : ℕ → Option ℕ
  | 0 => none
  | n + 1 =>
    match firstIdx p n with
    | some i => some i
    | none => if p n then some n else none

/-- Association-list lookup: Python `dict.get` for a dict with this entry
list in insertion order. -/
def alGet [DecidableEq κ] : List (κ × α) → κ → Option α
  | [], _ => none
  | (k, v) :: t, c => if k = c then some v else alGet t c

/-- Association-list store: Python `dict[k] = v` (replace in place, else
append), preserving insertion order. -/
def alSet [DecidableEq κ] : List (κ × α) → κ → α → List (κ × α)
  | [], k, v => [(k, v)]
  | (k2, v2) :: t, k, v => if k2 = k then (k2, v) :: t else (k2, v2) :: alSet t k v

/-- Insertion step of a descending sort. -/
def insertDesc (x : ℕ) : List ℕ → List ℕ
  | [] => [x]
  | y :: ys => if y ≤ x then x :: y :: ys else y :: insertDesc x ys

/-- Python `sorted(keys, reverse=True)`. -/
def sortDesc (l : List ℕ) : List ℕ := l.foldr insertDesc []

/-- First-occurrence deduplication (`seen`-set filtering), keeping order. -/
def dedupFirstAux (seen : List String) : List String → List String
  | [] => []
  | x :: xs =>
    if x ∈ seen then dedupFirstAux seen xs
    else x :: dedupFirstAux (x :: seen) xs

/-- Distinct elements of a list in first-occurrence order. -/
def dedupFirst (l : List String) : List String := dedupFirstAux [] l

/-! ### The raw grid -/

/-- One worksheet as `pd.read_excel(..., header=None)` yields it: a
rectangular grid of cells. `ncols` is `shape[1]`. -/
structure Grid where
  rows : List (List Cell)
  ncols : ℕ
  wf : ∀ row ∈ rows, row.length = ncols

/-- Number of rows, `len(raw)`. -/
def Grid.nrows (g : Grid) : ℕ := g.rows.length

/-- Cell access `raw.iat[r, c]`; out-of-range reads (which the Python code
never performs) default to the empty cell. -/
def Grid.iat (g : Grid) (r c : ℕ) : Cell := (g.rows.getD r []).getD c Cell.empty

/-! ### `_find_income_statement_start` (identical in both handler modules) -/

/-- Embedding of `_find_income_statement_start`: phase 1 scans column 0
top-to-bottom for a cell normalising to `"income statement"`; phase 2 scans
the first `min(ncols, 12)` columns of every row, row-major. The row of the
first hit is returned (an inner-loop hit returns its row, which is the first
row containing any hit). -/
def findIncomeStatementStart (g : Grid) : Option ℕ :=
  match firstIdx (fun r => decide (normCell (g.iat r 0) = "income statement")) g.nrows with
  | some i => some i
  | none =>
    firstIdx
      (fun r => (natRange 0 (min g.ncols 12)).any
        (fun c => decide (normCell (g.iat r c) = "income statement")))
      g.nrows

/-! ### `_build_period_labels` (identical in both handler modules) -/

/-- Label synthesis for one column `c ≥ 1`: Python
`top and bot`, `top or bot` truthiness included. -/
def periodLabelAt (g : Grid) (startRow c : ℕ) : Option String :=
  let top := if startRow + 1 < g.nrows then cleanCell (g.iat (startRow + 1) c) else none
  let bot := if startRow + 2 < g.nrows then cleanCell (g.iat (startRow + 2) c) else none
  if truthyOpt top && truthyOpt bot then some (strOfOpt top ++ " " ++ strOfOpt bot)
  else
    let ob := if truthyOpt top then top else bot
    if truthyOpt ob then some (strOfOpt ob) else none

/-- Embedding of `_build_period_labels`: a length-`ncols` list, all `none`
when row `start_row + 2` is out of range, column 0 never labelled. -/
def buildPeriodLabels (g : Grid) (startRow : ℕ) : List (Option String) :=
  if g.nrows ≤ startRow + 2 then List.replicate g.ncols none
  else (natRange 0 g.ncols).map (fun c => if c = 0 then none else periodLabelAt g startRow c)

/-! ### Column-to-period map and period ordering -/

/-- Body of the `for c, lab in enumerate(period_labels)` loop, `c` being the
index of the head of the remaining label list. -/
def extractColToPeriodAux (c : ℕ) : List (Option String) → List (ℕ × String)
  | [] => []
  | lab :: rest =>
    let t := extractColToPeriodAux (c + 1) rest
    if c = 0 then t
    else
      match lab with
      | none => t
      | some s =>
        let p := pyStrip s
        if p = "" then t else (c, p) :: t

/-- Embedding of `_extract_col_to_period` (nested-dict module), textually
identical to the first half of `_extract_periods_and_colmap` (table module):
keep columns `c ≥ 1` whose label strips to a non-empty string. -/
def extractColToPeriod (labels : List (Option String)) : List (ℕ × String) :=
  extractColToPeriodAux 0 labels

/-- Append `p` to the accumulated period list unless already seen
(`if p not in seen`). -/
def seenStep (acc : List String) (p : String) : List String :=
  if p ∈ acc then acc else acc ++ [p]

/-- Loop body of the descending-column walk: look the column up in the map
and record its period on first sight. -/
def periodStep (m : List (ℕ × String)) (acc : List String) (c : ℕ) : List String :=
  match alGet m c with
  | some p => seenStep acc p
  | none => acc

/-- Second half of `_extract_periods_and_colmap`: walk the column indices in
descending order and append each column's period on first sight. -/
def periodsFromMap (m : List (ℕ × String)) : List String :=
  (sortDesc (m.map Prod.fst)).foldl (periodStep m) []

/-- Embedding of `_extract_periods_and_colmap`. -/
def extractPeriodsAndColmap (labels : List (Option String)) : List String × List (ℕ × String) :=
  let m := extractColToPeriod labels
  (periodsFromMap m, m)

/-! ### Long-form record extraction (table module) -/

/-- One long-form row of `income_statement_raw`. -/
structure Record where
  line_item : String
  period : String
  value : Cell
  value_numeric : Option PyFloat
  col_index : ℕ
deriving DecidableEq

/-- Row-header handling shared by both handler modules: clean column 0,
skip rows whose normalised label is empty, `"for the fiscal period ending"`
or `"currency"`, and return `str(label).strip()` as the line item. -/
def rowLabel (g : Grid) (r : ℕ) : Option String :=
  let label := cleanCell (g.iat r 0)
  let labelNorm := normOpt label
  if labelNorm = "" then none
  else if labelNorm = "for the fiscal period ending" ∨ labelNorm = "currency" then none
  else
    let lineItem := pyStrip (strOfOpt label)
    if lineItem = "" then none else some lineItem

/-- Records emitted for one data row by the table module:
`for c in range(1, raw.shape[1])`, skipping columns with no (or falsy)
period and cells that clean to `None`. -/
def rowRecords (g : Grid) (m : List (ℕ × String)) (r : ℕ) : List Record :=
  match rowLabel g r with
  | none => []
  | some lineItem =>
    (natRange 1 (g.ncols - 1)).filterMap
      (fun c =>
        match alGet m c with
        | none => none
        | some period =>
          if period = "" then none
          else
            match cleanCell (g.iat r c) with
            | none => none
            | some cell =>
              some ⟨lineItem, period, cell, parseNumeric cell, c⟩)

/-- Data-row index range `range(start_row + 3, len(raw))`. -/
def rowRange (g : Grid) (startRow : ℕ) : List ℕ :=
  natRange (startRow + 3) (g.nrows - (startRow + 3))

/-- The full long-form record list produced by the table module's scan. -/
def extractRecords (g : Grid) (startRow : ℕ) (m : List (ℕ × String)) : List Record :=
  (rowRange g startRow).flatMap (rowRecords g m)

/-- Line items added to `line_item_seen`, one per processed data row (a row
is counted even when it emits no records). -/
def processedLabels (g : Grid) (startRow : ℕ) : List String :=
  (rowRange g startRow).filterMap (rowLabel g)

/-! ### Nested-dict extraction (`income_statement.py`) -/

/-- Value stored in the nested dict: the parsed float when parsing
succeeded, the cleaned raw cell otherwise. -/
inductive StoredVal where
  | num (f : PyFloat)
  | raw (c : Cell)
deriving DecidableEq

/-- The nested result `State._data["income_statement"]`: an insertion-ordered
dict from period to an insertion-ordered dict from line item to value. -/
abbrev Nested := List (String × List (String × StoredVal))

/-- Loop body of the pre-creation pass: `if period not in income_statement:
income_statement[period] = {}`. -/
def initStep (m : List (ℕ × String)) (d : Nested) (c : ℕ) : Nested :=
  match alGet m c with
  | some period => if (alGet d period).isSome then d else d ++ [(period, [])]
  | none => d

/-- Pre-creation loop: `for c in sorted(col_to_period.keys(), reverse=True)`
add an empty dict for each unseen period. -/
def initPeriods (m : List (ℕ × String)) : Nested :=
  (sortDesc (m.map Prod.fst)).foldl (initStep m) []

/-- Value to store for a cleaned cell:
`num if num is not None else cell`. -/
def storedValOf (cell : Cell) : StoredVal :=
  match parseNumeric cell with
  | some f => StoredVal.num f
  | none => StoredVal.raw cell

/-- Nested store of one value:
`income_statement[period][line_item] = v` after ensuring the period dict
exists. -/
def nestedPut (d : Nested) (period lineItem : String) (v : StoredVal) : Nested :=
  alSet d period (alSet ((alGet d period).getD []) lineItem v)

/-- Loop body over one `(column, period)` pair of `col_to_period.items()`. -/
def nestedCellStep (g : Grid) (r : ℕ) (lineItem : String) (d : Nested) (cp : ℕ × String) :
    Nested :=
  match cleanCell (g.iat r cp.1) with
  | none => d
  | some cell => nestedPut d cp.2 lineItem (storedValOf cell)

/-- One data row of the nested-dict module: iterate `col_to_period.items()`
in insertion order, store parsed-or-raw values, last write wins. -/
def nestedRow (g : Grid) (m : List (ℕ × String)) (d : Nested) (r : ℕ) : Nested :=
  match rowLabel g r with
  | none => d
  | some lineItem => m.foldl (nestedCellStep g r lineItem) d

/-- Nested-dict result of `income_statement.py` after the header was located
at `startRow` (both modules compute the same `start_row`, labels and
column map from the same grid). -/
def parseNested (g : Grid) (startRow : ℕ) : Nested :=
  let m := extractColToPeriod (buildPeriodLabels g startRow)
  (rowRange g startRow).foldl (nestedRow g m) (initPeriods m)

/-- Two-level lookup `State._data["income_statement"][p][l]`, `none` when
either key is absent. -/
def nestedGet (d : Nested) (p l : String) : Option StoredVal :=
  alGet ((alGet d p).getD []) l

/-! ### `_best_metric` (identical in `app.py` and the web blueprint) -/

/-- One row of the per-period statement DataFrame as `_best_metric` reads
it: the line-item text and the (possibly absent) numeric value. -/
structure MetricRow where
  line_item : String
  value_numeric : Option PyFloat
deriving DecidableEq

/-- Embedding of `any(n in li for n in needles)` with
`li = str(row["line_item"]).lower()`. -/
def metricRowMatches (row : MetricRow) (needles : List String) : Bool :=
  needles.any (fun n => hasSubstring n.data (row.line_item.data.map Char.toLower))

/-- Embedding of `_best_metric`: outer loop over rows, inner `any` over
needles on the lower-cased line item; on the first matching row return its
numeric value (`none` when that value is absent). -/
def bestMetric : List MetricRow → List String → Option PyFloat
  | [], _ => none
  | row :: rest, needles =>
    if metricRowMatches row needles then
      match row.value_numeric with
      | none => none
      | some v => some v
    else bestMetric rest needles

/-! ### The table-module pipeline `parse_income_statement_tables_from_path` -/

/-- A value in the `income_statement_details` key/value table. -/
inductive DetailVal where
  | s (v : String)
  | n (v : ℕ)
deriving DecidableEq

/-- The three tables the pipeline stores into `app_state`. -/
structure TablesState where
  raw : List Record
  details : List (String × DetailVal)
  periods : List String
deriving DecidableEq

/-- Pipeline failure modes observable in the embedding: an empty workbook
(`xl.sheet_names[0]` raises `IndexError`) or an exception escaping the
progress callback. -/
inductive PErr where
  | emptyWorkbook
  | hookRaised
deriving DecidableEq

/-- Embedding of the local `push` helper: calling the hook with `msg`;
`cb m = false` models the callback raising, which propagates. -/
def push (cb : Option (String → Bool)) (msg : String) : Except PErr Unit :=
  match cb with
  | none => .ok ()
  | some f => if f msg then .ok () else .error .hookRaised

/-- Sheet selection: first sheet whose lower-cased name contains
`"income"`, else the first sheet; `none` on an empty workbook. -/
def selectSheet (wb : List (String × Grid)) : Option (String × Grid) :=
  match wb.filter (fun p => hasSubstring "income".data (p.1.data.map Char.toLower)) with
  | c :: _ => some c
  | [] => wb.head?

/-- The details rows built on the success path. -/
def detailsRows (sheetName : String) (periods : List String)
    (lineItemCount dataPoints : ℕ) : List (String × DetailVal) :=
  [("sheet_name", .s sheetName),
   ("periods", .s (String.intercalate ", " periods)),
   ("most_recent_period", .s (match periods with | p :: _ => p | [] => "")),
   ("period_count", .n periods.length),
   ("line_item_count", .n lineItemCount),
   ("data_points", .n dataPoints)]

/-- Embedding of `parse_income_statement_tables_from_path` over an
already-read workbook (a list of named grids). I/O (file open, sheet read)
is outside the model; everything downstream, including the progress pushes
in source order, is kept. -/
def parseTables (cb : Option (String → Bool)) (wb : List (String × Grid)) :
    Except PErr TablesState := do
  push cb "Opening Excel..."
  match selectSheet wb with
  | none => Except.error PErr.emptyWorkbook
  | some (sheetName, raw) => do
    push cb ("Reading sheet: " ++ sheetName)
    push cb "Locating Income Statement header..."
    match findIncomeStatementStart raw with
    | none => do
      push cb "Failed: Income Statement header not found."
      return ⟨[],
        [("error", .s ("Could not find 'Income Statement' in '" ++ sheetName ++ "'"))],
        []⟩
    | some startRow => do
      let pm := extractPeriodsAndColmap (buildPeriodLabels raw startRow)
      push cb ("Detected periods: " ++ toString pm.1.length)
      (match pm.1 with
       | p :: _ => push cb ("Most recent period: " ++ p)
       | [] => pure ())
      push cb "Extracting line items and values..."
      let records := extractRecords raw startRow pm.2
      push cb "Saving tables into app_state..."
      push cb "Income Statement parsing done."
      return ⟨records,
        detailsRows sheetName pm.1 (dedupFirst (processedLabels raw startRow)).length
          records.length,
        pm.1⟩

/-! ### Spec-side definitions

The following definitions are written from the specification's words (not
from the source) and are only used to compare the source's behaviour against
the spec in refinement-style theorems. -/

/-- Spec wording (§4.5 / claim C1): the column labels of data columns
`c ≥ 1` (column 0 is reserved for line items per §4.4), trimmed, empty
excluded, in ascending column order; `c` indexes the head. -/
def ascendingLabels (c : ℕ) : List (Option String) → List String
  | [] => []
  | lab :: rest =>
    let keep : Option String :=
      if c = 0 then none
      else
        match lab with
        | some s => if pyStrip s = "" then none else some (pyStrip s)
        | none => none
    match keep with
    | some p => p :: ascendingLabels (c + 1) rest
    | none => ascendingLabels (c + 1) rest

/-- Spec wording (claim C1): the non-empty labels in descending column-index
order (rightmost column first). -/
def specDescendingLabels (labels : List (Option String)) : List String :=
  (ascendingLabels 0 labels).reverse

/-- Keep a cleaned cell only when it is truthy (used to phrase the amended
period-label rule). -/
def truthyFilter (o : Option Cell) : Option Cell :=
  match o with
  | some c => if c.truthy then some c else none
  | none => none

/-- Case analysis of the spec's period-label rule (§4.4 / claim C7): join
with one space when both header cells yield a value, the single value's
string form when exactly one does, no label otherwise. -/
def specLabelCase (top bot : Option Cell) : Option String :=
  match top, bot with
  | some a, some b => some (strOfCell a ++ " " ++ strOfCell b)
  | some a, none => some (strOfCell a)
  | none, some b => some (strOfCell b)
  | none, none => none

/-- Claim C7 as stated: "present" means `cleanCell` returned a value. -/
def specPresenceLabels (g : Grid) (startRow : ℕ) : List (Option String) :=
  if g.nrows ≤ startRow + 2 then List.replicate g.ncols none
  else
    (natRange 0 g.ncols).map
      (fun c =>
        if c = 0 then none
        else specLabelCase (cleanCell (g.iat (startRow + 1) c)) (cleanCell (g.iat (startRow + 2) c)))

/-- Claim C7 amended: "present" means `cleanCell` returned a Python-truthy
value (a numeric `0` header cell counts as absent). -/
def specTruthyLabels (g : Grid) (startRow : ℕ) : List (Option String) :=
  if g.nrows ≤ startRow + 2 then List.replicate g.ncols none
  else
    (natRange 0 g.ncols).map
      (fun c =>
        if c = 0 then none
        else
          specLabelCase (truthyFilter (cleanCell (g.iat (startRow + 1) c)))
            (truthyFilter (cleanCell (g.iat (startRow + 2) c))))

/-- Claim C5 as stated: alias matching against the spec's
`normalizeLabel(line_item)` (lower-case with whitespace collapsing) instead
of the source's plain `.lower()`. -/
def specBestMetric : List MetricRow → List String → Option PyFloat
  | [], _ => none
  | row :: rest, needles =>
    if needles.any (fun n => hasSubstring n.data (normStr row.line_item).data) then
      match row.value_numeric with
      | none => none
      | some v => some v
    else specBestMetric rest needles

/-- Value a long-form record contributes to the nested dict: the parsed
float when available, the cleaned raw cell otherwise. -/
def storedOfRecord (rec : Record) : StoredVal :=
  match rec.value_numeric with
  | some f => StoredVal.num f
  | none => StoredVal.raw rec.value

/-- Last long-form record for a `(period, line item)` pair in row-major scan
order. -/
def lastRecordFor (recs : List Record) (p l : String) : Option Record :=
  (recs.filter (fun rec => rec.period = p ∧ rec.line_item = l)).getLast?

/-- Replay one long-form record into a nested dict (the common abstraction
both parsers refine). -/
def insertRecord (d : Nested) (rec : Record) : Nested :=
  nestedPut d rec.period rec.line_item (storedOfRecord rec)

/-- The record a `(column, period)` pair of the column map contributes for
one data row, if its cell survives cleaning — the emission both parsers
share. -/
def rowEmit (g : Grid) (r : ℕ) (lineItem : String) (cp : ℕ × String) : Option Record :=
  match cleanCell (g.iat r cp.1) with
  | none => none
  | some cell => some ⟨lineItem, cp.2, cell, parseNumeric cell, cp.1⟩

/-! ### Concrete example data used by witnesses and counterexamples -/

/-- Shorthand for a text cell. -/
def tc (s : String) : Cell := .str s

/-- Grid with the anchor in column 0 at row 1 (phase-1 example). -/
def gridAnchorCol0 : Grid :=
  ⟨[[tc "junk", tc "x"], [tc " Income  STATEMENT ", tc "y"], [tc "Income Statement", .empty]],
   2, by decide⟩

/-- Grid whose only anchor sits in column 2 (phase-2 example). -/
def gridAnchorCol2 : Grid :=
  ⟨[[tc "a", tc "b", tc "Income Statement"], [tc "c", .empty, .empty]], 3, by decide⟩

/-- Grid without the anchor anywhere. -/
def gridNoAnchor : Grid :=
  ⟨[[tc "Balance Sheet", tc "x"], [tc "y", .empty]], 2, by decide⟩

/-- Grid whose header block is followed by a data row carrying a
non-numeric value. -/
def gridNA : Grid :=
  ⟨[[tc "Income Statement", .empty],
    [.empty, tc "FY23"],
    [.empty, .empty],
    [tc "Item", tc "N/A"]], 2, by decide⟩

/-- Header grid whose top label cell holds the numeric value `0`: the
presence/truthiness counterexample for the period-label rule. -/
def gridZeroTop : Grid :=
  ⟨[[tc "Income Statement", .empty], [.empty, .int 0], [.empty, tc "FY22"]], 2, by decide⟩

/-- Small complete workbook sheet: anchor at row 0, one period column,
two data rows sharing a line-item label (the second overwrites in the
nested form), values kept non-numeric so that witnesses evaluate inside the
kernel. -/
def gridDup : Grid :=
  ⟨[[tc "Income Statement", .empty],
    [.empty, tc "FY23"],
    [.empty, .empty],
    [tc "Revenue", tc "N/A"],
    [tc "Revenue", tc "n/m"]], 2, by decide⟩

/-- One-sheet workbook used by the progress-hook theorems. -/
def wbHook : List (String × Grid) := [("Sheet1", gridNoAnchor)]

/-! ## Theorems -/

/-- Claim C4: `_parse_numeric` on text strips a surrounding parenthesis pair
as a negative sign and removes thousands separators before the float parse,
returning `none` on failure: `"(1,234)"` parses to `-1234.0`, `"1,234.5"`
to `1234.5`, and `""`, `"N/A"` fail. -/
theorem parse_numeric_text_examples :
    parseNumeric (.str "(1,234)") = some (.finite (-1234))
    ∧ parseNumeric (.str "1,234.5") = some (.finite (2469 / 2))
    ∧ parseNumeric (.str "") = none
    ∧ parseNumeric (.str "N/A") = none := by
  refine ⟨?_, ?_, rfl, rfl⟩
  · have h : parseNumeric (.str "(1,234)")
        = some (.finite (-(((1234 : ℕ) : ℚ) + ((0 : ℕ) : ℚ) / ((10 : ℚ) ^ (0 : ℕ))))) := rfl
    rw [h]
    norm_num
  · have h : parseNumeric (.str "1,234.5")
        = some (.finite (((1234 : ℕ) : ℚ) + ((5 : ℕ) : ℚ) / ((10 : ℚ) ^ (1 : ℕ)))) := rfl
    rw [h]
    norm_num

/-- Claim C8, counterexample: `_parse_numeric` applied to a float NaN does
not return `none` — the numeric fast path skips NaN, but the textual
fallback then parses `str(nan) = "nan"` with `float(...)`, which yields NaN
again. -/
theorem parse_numeric_nan_counterexample : parseNumeric Cell.nanF ≠ none := by
  decide

/-- Claim C8, amended: every non-NaN numeric input (int, finite float,
infinity) is returned unchanged as a float; a NaN input is rejected by the
numeric fast path but the textual fallback returns NaN, not `none`. -/
theorem parse_numeric_numeric_cases :
    (∀ n : ℤ, parseNumeric (.int n) = some (.finite (n : ℚ)))
    ∧ (∀ q : ℚ, parseNumeric (.real q) = some (.finite q))
    ∧ (∀ b : Bool, parseNumeric (.infF b) = some (.infV b))
    ∧ parseNumeric Cell.nanF = some PyFloat.nanV :=
  ⟨fun _ => rfl, fun _ => rfl, fun _ => rfl, by decide⟩

/-- Claim C5, counterexample: `_best_metric` matches against the plain
lower-cased line item, not the spec's whitespace-collapsing
`normalizeLabel`; a label with a doubled internal space is missed by the
source but matched by the claim's rule. -/
theorem best_metric_norm_counterexample :
    bestMetric [⟨"Gross  Profit", some (.finite 5)⟩] ["gross profit"] = none
    ∧ specBestMetric [⟨"Gross  Profit", some (.finite 5)⟩] ["gross profit"]
        = some (.finite 5) := by
  constructor
  · decide
  · decide

/-- Claim C5, amended: `_best_metric` iterates records in stored order with
aliases as the inner loop, stops at the first record whose lower-cased (not
whitespace-collapsed) line item contains some alias as a substring, and
returns that record's numeric value (`none` when that value is absent). -/
theorem best_metric_first_lower_match (rows : List MetricRow) (needles : List String)
    (i : ℕ) (hi : i < rows.length)
    (hmatch : metricRowMatches (rows.get ⟨i, hi⟩) needles = true)
    (hprev : ∀ j (hj : j < rows.length), j < i → metricRowMatches (rows.get ⟨j, hj⟩) needles = false) :
    bestMetric rows needles = (rows.get ⟨i, hi⟩).value_numeric := by
  induction rows generalizing i with
  | nil => exact absurd hi (Nat.not_lt_zero i)
  | cons row rest ih =>
    cases i with
    | zero =>
      simp only [List.get] at hmatch ⊢
      simp only [bestMetric, hmatch, if_true]
      cases row.value_numeric <;> rfl
    | succ i =>
      have h0 := hprev 0 (Nat.succ_pos _) (Nat.succ_pos i)
      simp only [List.get] at h0 hmatch ⊢
      simp only [bestMetric, h0, Bool.false_eq_true, if_false]
      exact ih i (Nat.lt_of_succ_lt_succ hi) hmatch
        (fun j hj hji => by
          have h := hprev (j + 1) (Nat.succ_lt_succ hj) (Nat.succ_lt_succ hji)
          simpa only [List.get] using h)

/-- Witness for `best_metric_first_lower_match`: the record named
"Gross Profit (Adj.)" is matched by the alias "gross profit" via substring
and its numeric value is returned. -/
theorem best_metric_first_lower_match_witness :
    metricRowMatches ⟨"Gross Profit (Adj.)", some (.finite 42)⟩ ["gross profit"] = true
    ∧ bestMetric [⟨"Gross Profit (Adj.)", some (.finite 42)⟩] ["gross profit"]
        = some (.finite 42) := by
  constructor
  · decide
  · exact best_metric_first_lower_match
      [⟨"Gross Profit (Adj.)", some (.finite 42)⟩] ["gross profit"] 0
      (by decide) (by decide)
      (fun j hj hji => absurd hji (Nat.not_lt_zero j))

/-! ### Helper lemmas: first-index scans and grid bounds -/

lemma firstIdx_eq_none (p : ℕ → Bool) (n : ℕ) (h : ∀ j, j < n → p j = false) :
    firstIdx p n = none := by
  induction n with
  | zero => rfl
  | succ n ih =>
    have hn := h n (Nat.lt_succ_self n)
    have hrec := ih (fun j hj => h j (Nat.lt_succ_of_lt hj))
    simp [firstIdx, hrec, hn]

lemma firstIdx_eq_some (p : ℕ → Bool) (n i : ℕ) (hi : i < n) (hp : p i = true)
    (hmin : ∀ j, j < i → p j = false) : firstIdx p n = some i := by
  induction n with
  | zero => exact absurd hi (Nat.not_lt_zero i)
  | succ n ih =>
    rcases Nat.lt_succ_iff_lt_or_eq.mp hi with h | h
    · simp [firstIdx, ih h]
    · subst h
      simp [firstIdx, firstIdx_eq_none p i hmin, hp]

lemma mem_natRange (x s n : ℕ) : x ∈ natRange s n ↔ s ≤ x ∧ x < s + n := by
  induction n generalizing s with
  | zero =>
    constructor
    · intro hx
      exact absurd hx (by simp [natRange])
    · intro hx
      omega
  | succ n ih =>
    constructor
    · intro hx
      simp only [natRange] at hx
      rcases List.mem_cons.mp hx with h | h
      · omega
      · have := (ih (s + 1)).mp h
        omega
    · intro hx
      simp only [natRange]
      rcases Nat.eq_or_lt_of_le hx.1 with h | h
      · exact List.mem_cons.mpr (Or.inl h.symm)
      · exact List.mem_cons.mpr (Or.inr ((ih (s + 1)).mpr ⟨h, by omega⟩))

lemma iat_eq_empty_of_ge (g : Grid) (r c : ℕ) (h : g.ncols ≤ c ∨ g.nrows ≤ r) :
    g.iat r c = Cell.empty := by
  rcases h with h | h
  · unfold Grid.iat
    by_cases hr : r < g.rows.length
    · rw [List.getD_eq_get _ _ hr]
      have hlen := g.wf _ (g.rows.get_mem r hr)
      exact List.getD_eq_default _ _ (hlen.symm ▸ h)
    · rw [List.getD_eq_default _ _ (Nat.le_of_not_lt hr)]
      exact List.getD_eq_default _ _ (Nat.zero_le c)
  · unfold Grid.iat
    rw [List.getD_eq_default _ _ h]
    exact List.getD_eq_default _ _ (Nat.zero_le c)

lemma anchor_nowhere_all (g : Grid)
    (hno : ∀ r c, r < g.nrows → c < g.ncols → normCell (g.iat r c) ≠ "income statement") :
    ∀ r c, normCell (g.iat r c) ≠ "income statement" := by
  intro r c
  by_cases hr : r < g.nrows
  · by_cases hc : c < g.ncols
    · exact hno r c hr hc
    · rw [iat_eq_empty_of_ge g r c (Or.inl (Nat.le_of_not_lt hc))]
      decide
  · rw [iat_eq_empty_of_ge g r c (Or.inr (Nat.le_of_not_lt hr))]
    decide

lemma find_start_none_of_nowhere (g : Grid)
    (hno : ∀ r c, r < g.nrows → c < g.ncols → normCell (g.iat r c) ≠ "income statement") :
    findIncomeStatementStart g = none := by
  have hall := anchor_nowhere_all g hno
  unfold findIncomeStatementStart
  rw [firstIdx_eq_none _ _ (fun j _ => decide_eq_false (hall j 0))]
  rw [firstIdx_eq_none _ _ ?_]
  intro j _
  simp only [List.any_eq_false]
  intro x _
  simp [hall j x]

/-! ### Claim C2: two-phase header location -/

/-- Claim C2: phase 1 returns the first row whose column-0 cell normalises
to the anchor; only if no such row exists does phase 2 scan the first
`min(ncols, 12)` columns of every row, row-major, returning the row of the
first hit; with no hit in either phase the function reports no header. -/
theorem find_start_two_phase (g : Grid) :
    (∀ i, i < g.nrows → normCell (g.iat i 0) = "income statement" →
      (∀ j, j < i → normCell (g.iat j 0) ≠ "income statement") →
      findIncomeStatementStart g = some i)
    ∧ ((∀ i, i < g.nrows → normCell (g.iat i 0) ≠ "income statement") →
      ∀ i, i < g.nrows →
        (∃ c, c < min g.ncols 12 ∧ normCell (g.iat i c) = "income statement") →
        (∀ j, j < i → ∀ c, c < min g.ncols 12 → normCell (g.iat j c) ≠ "income statement") →
        findIncomeStatementStart g = some i)
    ∧ ((∀ i, i < g.nrows → normCell (g.iat i 0) ≠ "income statement") →
      (∀ i, i < g.nrows → ∀ c, c < min g.ncols 12 → normCell (g.iat i c) ≠ "income statement") →
      findIncomeStatementStart g = none) := by
  refine ⟨?_, ?_, ?_⟩
  · intro i hi hhit hmin
    unfold findIncomeStatementStart
    rw [firstIdx_eq_some _ _ i hi (decide_eq_true hhit)
      (fun j hj => decide_eq_false (hmin j hj))]
  · intro hno1 i hi hhit hmin
    unfold findIncomeStatementStart
    rw [firstIdx_eq_none _ _ (fun j hj => decide_eq_false (hno1 j hj))]
    rw [firstIdx_eq_some _ _ i hi ?_ ?_]
    · obtain ⟨c, hc, hanch⟩ := hhit
      simp only [List.any_eq_true]
      exact ⟨c, (mem_natRange c 0 (min g.ncols 12)).mpr ⟨Nat.zero_le c, by omega⟩, by simp [hanch]⟩
    · intro j hj
      simp only [List.any_eq_false]
      intro x hx
      have hxlt : x < min g.ncols 12 := by
        have := (mem_natRange x 0 (min g.ncols 12)).mp hx
        omega
      simp [hmin j hj x hxlt]
  · intro hno1 hno2
    unfold findIncomeStatementStart
    rw [firstIdx_eq_none _ _ (fun j hj => decide_eq_false (hno1 j hj))]
    rw [firstIdx_eq_none _ _ ?_]
    intro j hj
    simp only [List.any_eq_false]
    intro x hx
    have hxlt : x < min g.ncols 12 := by
      have := (mem_natRange x 0 (min g.ncols 12)).mp hx
      omega
    simp [hno2 j hj x hxlt]

/-- Witness for `find_start_two_phase`: a phase-1 hit at row 1 (with
whitespace/case noise), a phase-2-only hit at row 0 column 2, and a no-hit
grid. -/
theorem find_start_two_phase_witness :
    findIncomeStatementStart gridAnchorCol0 = some 1
    ∧ findIncomeStatementStart gridAnchorCol2 = some 0
    ∧ findIncomeStatementStart gridNoAnchor = none := by
  refine ⟨(find_start_two_phase gridAnchorCol0).1 1 (by decide) (by decide) ?_,
    (find_start_two_phase gridAnchorCol2).2.1 ?_ 0 (by decide) ⟨2, by decide, by decide⟩ ?_,
    (find_start_two_phase gridNoAnchor).2.2 ?_ ?_⟩
  · intro j hj
    have hj1 : j = 0 := by omega
    subst hj1
    decide
  · intro i hi
    have h2 : i < 2 := hi
    interval_cases i <;> decide
  · intro j hj
    exact absurd hj (Nat.not_lt_zero j)
  · intro i hi
    have h2 : i < 2 := hi
    interval_cases i <;> decide
  · intro i hi c hc
    have h2 : i < 2 := hi
    have hc2 : c < 2 := hc
    interval_cases i <;> interval_cases c <;> decide

/-! ### Claim C7: period-label synthesis -/

lemma periodLabelAt_eq_case (g : Grid) (startRow c : ℕ)
    (h1 : startRow + 1 < g.nrows) (h2 : startRow + 2 < g.nrows) :
    periodLabelAt g startRow c
      = specLabelCase (truthyFilter (cleanCell (g.iat (startRow + 1) c)))
          (truthyFilter (cleanCell (g.iat (startRow + 2) c))) := by
  simp only [periodLabelAt, h1, h2, if_true]
  cases hT : cleanCell (g.iat (startRow + 1) c) with
  | none =>
    cases hB : cleanCell (g.iat (startRow + 2) c) with
    | none => simp [truthyOpt, truthyFilter, specLabelCase, strOfOpt]
    | some b =>
      cases hb : b.truthy <;>
        simp [truthyOpt, truthyFilter, specLabelCase, strOfOpt, hb]
  | some a =>
    cases hB : cleanCell (g.iat (startRow + 2) c) with
    | none =>
      cases ha : a.truthy <;>
        simp [truthyOpt, truthyFilter, specLabelCase, strOfOpt, ha]
    | some b =>
      cases ha : a.truthy <;> cases hb : b.truthy <;>
        simp [truthyOpt, truthyFilter, specLabelCase, strOfOpt, ha, hb]

/-- Claim C7, counterexample: the source decides "present" by Python
truthiness, not by `cleanCell` success — a numeric `0` top header cell is
treated as absent, so the claimed `"{top} {bottom}"` join does not happen. -/
theorem build_labels_presence_counterexample :
    buildPeriodLabels gridZeroTop 0 = [none, some "FY22"]
    ∧ specPresenceLabels gridZeroTop 0 = [none, some "0 FY22"] := by
  constructor
  · decide
  · decide

/-- Claim C7, amended: for every column `c ≥ 1` the label is the
single-space join when both cleaned header cells are truthy, the single
truthy value's string form when exactly one is truthy, and none when
neither is truthy; when `start_row + 2` is beyond the grid every label is
none (and column 0 is never labelled). -/
theorem build_labels_truthy_spec (g : Grid) (startRow : ℕ) :
    buildPeriodLabels g startRow = specTruthyLabels g startRow := by
  unfold buildPeriodLabels specTruthyLabels
  by_cases h : g.nrows ≤ startRow + 2
  · rw [if_pos h, if_pos h]
  · rw [if_neg h, if_neg h]
    refine List.map_congr_left ?_
    intro c _
    by_cases hc : c = 0
    · simp [hc]
    · simp only [if_neg hc]
      exact periodLabelAt_eq_case g startRow c (by omega) (by omega)

/-! ### Claim C6: header-not-found dataset -/

/-- Claim C6: when the selected sheet contains the anchor nowhere, the
pipeline returns (rather than raising) a result with empty record and
period tables whose details table holds a single error row naming the
scanned sheet. -/
theorem header_not_found_dataset (wb : List (String × Grid)) (name : String) (g : Grid)
    (hsel : selectSheet wb = some (name, g))
    (hno : ∀ r c, r < g.nrows → c < g.ncols → normCell (g.iat r c) ≠ "income statement") :
    parseTables none wb
      = Except.ok ⟨[],
          [("error", DetailVal.s ("Could not find 'Income Statement' in '" ++ name ++ "'"))],
          []⟩ := by
  have hfind := find_start_none_of_nowhere g hno
  simp [parseTables, push, hsel, hfind, Bind.bind, Except.bind, Pure.pure, Except.pure]

/-- Witness for `header_not_found_dataset` on a one-sheet workbook. -/
theorem header_not_found_dataset_witness :
    parseTables none [("Sheet1", gridNoAnchor)]
      = Except.ok ⟨[],
          [("error", DetailVal.s "Could not find 'Income Statement' in 'Sheet1'")],
          []⟩ := by
  have h := header_not_found_dataset [("Sheet1", gridNoAnchor)] "Sheet1" gridNoAnchor rfl ?_
  · exact h
  · intro r c hr hc
    have hr2 : r < 2 := hr
    have hc2 : c < 2 := hc
    interval_cases r <;> interval_cases c <;> decide

/-! ### Claim C3: per-record numeric invariant -/

/-- Claim C3: every emitted record stores as `value_numeric` exactly
`_parse_numeric` of its stored `value`; a record whose value fails to parse
is still present with `value_numeric` absent, and no parse failure removes
any other record. -/
theorem records_numeric_invariant (g : Grid) (startRow : ℕ) (m : List (ℕ × String))
    (rec : Record) (h : rec ∈ extractRecords g startRow m) :
    rec.value_numeric = parseNumeric rec.value := by
  rw [extractRecords] at h
  simp only [List.mem_flatMap] at h
  obtain ⟨r, -, hr⟩ := h
  rw [rowRecords] at hr
  split at hr
  · simp at hr
  · simp only [List.mem_filterMap] at hr
    obtain ⟨c, -, hc⟩ := hr
    split at hc
    · simp at hc
    · split at hc
      · simp at hc
      · split at hc
        · simp at hc
        · simp only [Option.some.injEq] at hc
          rw [← hc]

/-- Witness for `records_numeric_invariant`: the `"N/A"` cell of `gridNA`
yields a record that is present with its raw value but no numeric value. -/
theorem records_numeric_invariant_witness :
    (⟨"Item", "FY23", .str "N/A", none, 1⟩ : Record)
        ∈ extractRecords gridNA 0 [(1, "FY23")]
    ∧ (⟨"Item", "FY23", .str "N/A", none, 1⟩ : Record).value_numeric
        = parseNumeric (⟨"Item", "FY23", .str "N/A", none, 1⟩ : Record).value :=
  ⟨by decide, records_numeric_invariant gridNA 0 [(1, "FY23")] _ (by decide)⟩

/-! ### Claim C9: progress hook -/

/-- Claim C9, counterexample: a raising progress hook is not swallowed —
`push` has no exception handler, so the pipeline aborts and its result
differs from the hook-free run. -/
theorem hook_failure_not_swallowed :
    parseTables (some (fun _ => false)) wbHook ≠ parseTables none wbHook := by
  have h1 : parseTables (some (fun _ => false)) wbHook = Except.error PErr.hookRaised := rfl
  have h2 : parseTables none wbHook
      = Except.ok ⟨[],
          [("error", DetailVal.s "Could not find 'Income Statement' in 'Sheet1'")],
          []⟩ := rfl
  rw [h1, h2]
  simp

/-- Claim C9, amended: a hook that never raises does not change the parse
result — the pipeline output with such a hook installed equals the output
with no hook. A raising hook instead aborts the invocation. -/
theorem benign_hook_preserves_result (cb : String → Bool) (h : ∀ m, cb m = true)
    (wb : List (String × Grid)) :
    parseTables (some cb) wb = parseTables none wb := by
  simp only [parseTables, push, h, if_true]

/-- Witness for `benign_hook_preserves_result` on the one-sheet workbook. -/
theorem benign_hook_preserves_result_witness :
    parseTables (some (fun _ => true)) wbHook = parseTables none wbHook :=
  benign_hook_preserves_result (fun _ => true) (fun _ => rfl) wbHook

/-! ### Claim C1: period ordering -/

lemma colToPeriodAux_key_bounds (l : List (Option String)) :
    ∀ c k v, (k, v) ∈ extractColToPeriodAux c l → 1 ≤ k ∧ c ≤ k ∧ k < c + l.length := by
  induction l with
  | nil =>
    intro c k v h
    simp [extractColToPeriodAux] at h
  | cons lab rest ih =>
    intro c k v h
    have htail : (k, v) ∈ extractColToPeriodAux (c + 1) rest →
        1 ≤ k ∧ c ≤ k ∧ k < c + (lab :: rest).length := by
      intro hm
      have := ih (c + 1) k v hm
      simp only [List.length_cons]
      omega
    by_cases hc : c = 0
    · simp only [extractColToPeriodAux, if_pos hc] at h
      exact htail h
    · cases lab with
      | none =>
        simp only [extractColToPeriodAux, if_neg hc] at h
        exact htail h
      | some s =>
        by_cases hp : pyStrip s = ""
        · simp only [extractColToPeriodAux, if_neg hc, hp, if_pos] at h
          exact htail h
        · simp only [extractColToPeriodAux, if_neg hc, if_neg hp] at h
          rcases List.mem_cons.mp h with h | h
          · simp only [Prod.mk.injEq] at h
            simp only [List.length_cons]
            omega
          · exact htail h

lemma colToPeriodAux_sorted (l : List (Option String)) :
    ∀ c, List.Pairwise (fun a b : ℕ × String => a.1 < b.1) (extractColToPeriodAux c l) := by
  induction l with
  | nil =>
    intro c
    simp [extractColToPeriodAux]
  | cons lab rest ih =>
    intro c
    by_cases hc : c = 0
    · simp only [extractColToPeriodAux, if_pos hc]
      exact ih (c + 1)
    · cases lab with
      | none =>
        simp only [extractColToPeriodAux, if_neg hc]
        exact ih (c + 1)
      | some s =>
        by_cases hp : pyStrip s = ""
        · simp only [extractColToPeriodAux, if_neg hc, hp, if_pos]
          exact ih (c + 1)
        · simp only [extractColToPeriodAux, if_neg hc, if_neg hp]
          refine List.pairwise_cons.mpr ⟨?_, ih (c + 1)⟩
          intro kv hkv
          have := colToPeriodAux_key_bounds rest (c + 1) kv.1 kv.2 (by exact hkv)
          omega

lemma alGet_of_mem (m : List (ℕ × String))
    (hnd : List.Pairwise (fun a b : ℕ × String => a.1 ≠ b.1) m)
    (k : ℕ) (v : String) (h : (k, v) ∈ m) : alGet m k = some v := by
  induction m with
  | nil => simp at h
  | cons p t ih =>
    obtain ⟨pk, pv⟩ := p
    rcases List.mem_cons.mp h with h | h
    · simp only [Prod.mk.injEq] at h
      obtain ⟨h1, h2⟩ := h
      subst h1
      subst h2
      simp [alGet]
    · have hne : pk ≠ k := by
        have := (List.pairwise_cons.mp hnd).1 (k, v) h
        simpa using this
      simp only [alGet, if_neg hne]
      exact ih (List.pairwise_cons.mp hnd).2 h

lemma insertDesc_of_forall_lt (x : ℕ) (r : List ℕ) (h : ∀ y ∈ r, x < y) :
    insertDesc x r = r ++ [x] := by
  induction r with
  | nil => rfl
  | cons y ys ih =>
    have hy : ¬ (y ≤ x) := by
      have := h y (List.mem_cons_self y ys)
      omega
    simp only [insertDesc, if_neg hy, List.cons_append]
    rw [ih (fun z hz => h z (List.mem_cons.mpr (Or.inr hz)))]

lemma sortDesc_of_sorted_lt (l : List ℕ) (h : List.Pairwise (· < ·) l) :
    sortDesc l = l.reverse := by
  induction l with
  | nil => rfl
  | cons x xs ih =>
    show insertDesc x (sortDesc xs) = (x :: xs).reverse
    rw [ih ((List.pairwise_cons.mp h).2)]
    rw [insertDesc_of_forall_lt x xs.reverse ?_]
    · simp
    · intro y hy
      exact (List.pairwise_cons.mp h).1 y (List.mem_reverse.mp hy)

lemma foldl_periodStep_eq (m : List (ℕ × String)) (l : List (ℕ × String))
    (hsub : ∀ kv ∈ l, alGet m kv.1 = some kv.2) :
    ∀ acc : List String,
      (l.map Prod.fst).foldl (periodStep m) acc = (l.map Prod.snd).foldl seenStep acc := by
  induction l with
  | nil => intro acc; rfl
  | cons kv t ih =>
    intro acc
    obtain ⟨k, v⟩ := kv
    simp only [List.map, List.foldl]
    have hk := hsub (k, v) (List.mem_cons_self _ _)
    simp only [periodStep, hk]
    exact ih (fun kv hkv => hsub kv (List.mem_cons.mpr (Or.inr hkv))) _

lemma foldl_seenStep_eq (l : List String) :
    ∀ (acc seen : List String), (∀ x : String, x ∈ seen ↔ x ∈ acc) →
      l.foldl seenStep acc = acc ++ dedupFirstAux seen l := by
  induction l with
  | nil =>
    intro acc seen _
    simp [dedupFirstAux]
  | cons x xs ih =>
    intro acc seen hiff
    simp only [List.foldl, dedupFirstAux, seenStep]
    by_cases hx : x ∈ acc
    · rw [if_pos hx, if_pos ((hiff x).mpr hx)]
      exact ih acc seen hiff
    · rw [if_neg hx, if_neg (fun hmem => hx ((hiff x).mp hmem))]
      rw [ih (acc ++ [x]) (x :: seen) ?_]
      · simp
      · intro y
        simp only [List.mem_cons, List.mem_append, List.mem_singleton, hiff y]
        tauto

lemma colToPeriodAux_values (l : List (Option String)) :
    ∀ c, (extractColToPeriodAux c l).map Prod.snd = ascendingLabels c l := by
  induction l with
  | nil =>
    intro c
    rfl
  | cons lab rest ih =>
    intro c
    by_cases hc : c = 0
    · simp only [extractColToPeriodAux, ascendingLabels, if_pos hc]
      exact ih (c + 1)
    · cases lab with
      | none =>
        simp only [extractColToPeriodAux, ascendingLabels, if_neg hc]
        exact ih (c + 1)
      | some s =>
        by_cases hp : pyStrip s = ""
        · simp only [extractColToPeriodAux, ascendingLabels, if_neg hc, hp, if_pos]
          exact ih (c + 1)
        · simp only [extractColToPeriodAux, ascendingLabels, if_neg hc, if_neg hp,
            List.map]
          simp only [ih (c + 1)]

/-- Claim C1: the derived period sequence is exactly the distinct non-empty
(trimmed) labels of data columns taken in descending column-index order,
each kept at its first occurrence; in particular the labels
`{1: "FY22", 2: "FY23", 3: "FY23"}` yield `["FY23", "FY22"]`. -/
theorem extract_periods_spec :
    (∀ labels : List (Option String),
      (extractPeriodsAndColmap labels).1 = dedupFirst (specDescendingLabels labels))
    ∧ (extractPeriodsAndColmap [none, some "FY22", some "FY23", some "FY23"]).1
        = ["FY23", "FY22"] := by
  constructor
  · intro labels
    show periodsFromMap (extractColToPeriodAux 0 labels) = _
    unfold periodsFromMap
    have hsorted := colToPeriodAux_sorted labels 0
    have hkeys : sortDesc ((extractColToPeriodAux 0 labels).map Prod.fst)
        = ((extractColToPeriodAux 0 labels).map Prod.fst).reverse :=
      sortDesc_of_sorted_lt _ ((List.pairwise_map).mpr hsorted)
    rw [hkeys, ← List.map_reverse]
    rw [foldl_periodStep_eq (extractColToPeriodAux 0 labels)
      (extractColToPeriodAux 0 labels).reverse ?_ []]
    · rw [foldl_seenStep_eq _ [] [] (by simp)]
      rw [List.nil_append, List.map_reverse, colToPeriodAux_values labels 0]
      rfl
    · intro kv hkv
      refine alGet_of_mem _ (hsorted.imp ?_) kv.1 kv.2 ?_
      · intro a b hab
        omega
      · exact List.mem_reverse.mp hkv
  · decide

/-! ### Claim C10: nested-dict vs long-form agreement -/

lemma alGet_alSet {κ α : Type} [DecidableEq κ] (d : List (κ × α)) (k k2 : κ) (v : α) :
    alGet (alSet d k v) k2 = if k2 = k then some v else alGet d k2 := by
  induction d with
  | nil =>
    simp only [alSet, alGet]
    by_cases h : k2 = k
    · subst h
      simp
    · rw [if_neg h, if_neg (fun hh => h hh.symm)]
  | cons p t ih =>
    obtain ⟨pk, pv⟩ := p
    simp only [alSet]
    by_cases hpk : pk = k
    · subst hpk
      rw [if_pos rfl]
      simp only [alGet]
      by_cases h2 : k2 = pk
      · subst h2
        simp
      · rw [if_neg h2, if_neg (fun hh => h2 hh.symm), if_neg (fun hh => h2 hh.symm)]
    · rw [if_neg hpk]
      simp only [alGet]
      by_cases h2 : pk = k2
      · subst h2
        simp [hpk]
      · rw [if_neg h2, if_neg h2, ih]

lemma mem_of_alGet_some {κ α : Type} [DecidableEq κ] (d : List (κ × α)) (k : κ) (v : α)
    (h : alGet d k = some v) : (k, v) ∈ d := by
  induction d with
  | nil => simp [alGet] at h
  | cons p t ih =>
    obtain ⟨pk, pv⟩ := p
    by_cases hk : pk = k
    · subst hk
      rw [show alGet ((pk, pv) :: t) pk = some pv from by rw [alGet, if_pos rfl]] at h
      have := Option.some.inj h
      subst this
      exact List.mem_cons_self _ _
    · rw [alGet, if_neg hk] at h
      exact List.mem_cons.mpr (Or.inr (ih h))

lemma alGet_eq_none_of_forall_ne {κ α : Type} [DecidableEq κ] (d : List (κ × α)) (k : κ)
    (h : ∀ kv ∈ d, kv.1 ≠ k) : alGet d k = none := by
  induction d with
  | nil => rfl
  | cons p t ih =>
    obtain ⟨pk, pv⟩ := p
    simp only [alGet, if_neg (h (pk, pv) (List.mem_cons_self _ _))]
    exact ih (fun kv hkv => h kv (List.mem_cons.mpr (Or.inr hkv)))

lemma nestedGet_insertRecord (d : Nested) (rec : Record) (p l : String) :
    nestedGet (insertRecord d rec) p l
      = if rec.period = p ∧ rec.line_item = l then some (storedOfRecord rec)
        else nestedGet d p l := by
  unfold insertRecord nestedPut nestedGet
  rw [alGet_alSet]
  by_cases hp : p = rec.period
  · subst hp
    rw [if_pos rfl, Option.getD_some, alGet_alSet]
    by_cases hl : l = rec.line_item
    · subst hl
      rw [if_pos rfl, if_pos ⟨rfl, rfl⟩]
    · rw [if_neg hl, if_neg (fun hand => hl hand.2.symm)]
  · rw [if_neg hp, if_neg (fun hand => hp hand.1.symm)]

lemma getLast?_cons_some {α : Type} (a x : α) (l : List α) (h : l.getLast? = some x) :
    (a :: l).getLast? = some x := by
  cases l with
  | nil => simp at h
  | cons b t => rw [List.getLast?_cons_cons]; exact h

lemma nestedGet_foldl_insert (recs : List Record) :
    ∀ (d : Nested) (p l : String),
      nestedGet (recs.foldl insertRecord d) p l
        = match lastRecordFor recs p l with
          | some rec => some (storedOfRecord rec)
          | none => nestedGet d p l := by
  induction recs with
  | nil =>
    intro d p l
    simp [lastRecordFor]
  | cons rec recs ih =>
    intro d p l
    simp only [List.foldl]
    rw [ih (insertRecord d rec) p l]
    by_cases hm : rec.period = p ∧ rec.line_item = l
    · have hfil : lastRecordFor (rec :: recs) p l
          = match lastRecordFor recs p l with
            | some r2 => some r2
            | none => some rec := by
        unfold lastRecordFor
        rw [List.filter_cons, if_pos (by simpa using hm)]
        cases hh : (recs.filter (fun r2 => r2.period = p ∧ r2.line_item = l)).getLast? with
        | none =>
          have : recs.filter (fun r2 => decide (r2.period = p ∧ r2.line_item = l)) = [] := by
            rwa [← List.getLast?_eq_none_iff]
          rw [show (recs.filter (fun r2 => r2.period = p ∧ r2.line_item = l)) = [] from this]
          rfl
        | some r2 => exact getLast?_cons_some rec r2 _ hh
      rw [hfil]
      cases hh : lastRecordFor recs p l with
      | none => simp [nestedGet_insertRecord, hm]
      | some r2 => rfl
    · have hfil : lastRecordFor (rec :: recs) p l = lastRecordFor recs p l := by
        unfold lastRecordFor
        rw [List.filter_cons, if_neg (by simpa using hm)]
      rw [hfil]
      cases hh : lastRecordFor recs p l with
      | none => simp [nestedGet_insertRecord, hm]
      | some r2 => rfl

lemma initStep_inner (m : List (ℕ × String)) (d : Nested) (c : ℕ)
    (h : ∀ pr ∈ d, pr.2 = ([] : List (String × StoredVal))) :
    ∀ pr ∈ initStep m d c, pr.2 = ([] : List (String × StoredVal)) := by
  unfold initStep
  cases alGet m c with
  | none => exact h
  | some period =>
    by_cases hs : (alGet d period).isSome
    · simpa [hs] using h
    · simp only [hs, if_false, Bool.false_eq_true]
      intro pr hpr
      rcases List.mem_append.mp hpr with hpr | hpr
      · exact h pr hpr
      · rcases List.mem_singleton.mp hpr with rfl
        rfl

lemma foldl_initStep_inner (m : List (ℕ × String)) (ks : List ℕ) :
    ∀ d : Nested, (∀ pr ∈ d, pr.2 = ([] : List (String × StoredVal))) →
      ∀ pr ∈ ks.foldl (initStep m) d, pr.2 = ([] : List (String × StoredVal)) := by
  induction ks with
  | nil => intro d h; exact h
  | cons k t ih =>
    intro d h
    exact ih (initStep m d k) (initStep_inner m d k h)

lemma nestedGet_initPeriods (m : List (ℕ × String)) (p l : String) :
    nestedGet (initPeriods m) p l = none := by
  unfold nestedGet
  cases hx : alGet (initPeriods m) p with
  | none => rfl
  | some inner =>
    have hmem := mem_of_alGet_some _ _ _ hx
    have : inner = ([] : List (String × StoredVal)) :=
      foldl_initStep_inner m (sortDesc (m.map Prod.fst)) [] (by simp) (p, inner) hmem
    subst this
    rfl

lemma filterMap_congr_mem {α β : Type} (l : List α) (f g2 : α → Option β)
    (h : ∀ a ∈ l, f a = g2 a) : l.filterMap f = l.filterMap g2 := by
  induction l with
  | nil => rfl
  | cons a t ih =>
    rw [List.filterMap_cons, List.filterMap_cons, h a (List.mem_cons_self a t),
      ih (fun b hb => h b (List.mem_cons.mpr (Or.inr hb)))]

lemma natRange_length (n : ℕ) : ∀ s, (natRange s n).length = n := by
  induction n with
  | zero => intro s; rfl
  | succ n ih =>
    intro s
    simp only [natRange, List.length_cons, ih (s + 1)]

lemma buildPeriodLabels_length (g : Grid) (startRow : ℕ) :
    (buildPeriodLabels g startRow).length = g.ncols := by
  unfold buildPeriodLabels
  by_cases h : g.nrows ≤ startRow + 2
  · rw [if_pos h, List.length_replicate]
  · rw [if_neg h, List.length_map, natRange_length]

lemma colToPeriodAux_vals_ne (l : List (Option String)) :
    ∀ c kv, kv ∈ extractColToPeriodAux c l → kv.2 ≠ "" := by
  induction l with
  | nil =>
    intro c kv h
    simp [extractColToPeriodAux] at h
  | cons lab rest ih =>
    intro c kv h
    by_cases hc : c = 0
    · simp only [extractColToPeriodAux, if_pos hc] at h
      exact ih (c + 1) kv h
    · cases lab with
      | none =>
        simp only [extractColToPeriodAux, if_neg hc] at h
        exact ih (c + 1) kv h
      | some s =>
        by_cases hp : pyStrip s = ""
        · simp only [extractColToPeriodAux, if_neg hc, hp, if_pos] at h
          exact ih (c + 1) kv h
        · simp only [extractColToPeriodAux, if_neg hc, if_neg hp] at h
          rcases List.mem_cons.mp h with h | h
          · subst h
            exact hp
          · exact ih (c + 1) kv h

lemma range_filterMap_rowfun (g : Grid) (r : ℕ) (li : String) :
    ∀ (n s : ℕ) (m : List (ℕ × String)),
      List.Pairwise (fun a b : ℕ × String => a.1 < b.1) m →
      (∀ kv ∈ m, s ≤ kv.1 ∧ kv.1 < s + n) →
      (natRange s n).filterMap
          (fun c =>
            match alGet m c with
            | none => none
            | some period =>
              if period = "" then none
              else
                match cleanCell (g.iat r c) with
                | none => none
                | some cell => some (⟨li, period, cell, parseNumeric cell, c⟩ : Record))
        = m.filterMap
            (fun kv =>
              if kv.2 = "" then none
              else
                match cleanCell (g.iat r kv.1) with
                | none => none
                | some cell => some (⟨li, kv.2, cell, parseNumeric cell, kv.1⟩ : Record)) := by
  intro n
  induction n with
  | zero =>
    intro s m hsort hb
    cases m with
    | nil => rfl
    | cons kv t =>
      have h1 : s ≤ kv.1 ∧ kv.1 < s + 0 := hb kv (List.mem_cons_self _ _)
      omega
  | succ n ih =>
    intro s m hsort hb
    rw [show natRange s (n + 1) = s :: natRange (s + 1) n from rfl, List.filterMap_cons]
    cases m with
    | nil =>
      simp only [alGet]
      exact ih (s + 1) [] (by simp) (by simp)
    | cons kv t =>
      obtain ⟨k, v⟩ := kv
      have hk : s ≤ k ∧ k < s + (n + 1) := hb (k, v) (List.mem_cons_self _ _)
      by_cases hks : k = s
      · subst hks
        have hget : alGet ((k, v) :: t) k = some v := by simp [alGet]
        simp only [hget]
        have hcong :
            (natRange (k + 1) n).filterMap
                (fun c =>
                  match alGet ((k, v) :: t) c with
                  | none => none
                  | some period =>
                    if period = "" then none
                    else
                      match cleanCell (g.iat r c) with
                      | none => none
                      | some cell => some (⟨li, period, cell, parseNumeric cell, c⟩ : Record))
              = (natRange (k + 1) n).filterMap
                  (fun c =>
                    match alGet t c with
                    | none => none
                    | some period =>
                      if period = "" then none
                      else
                        match cleanCell (g.iat r c) with
                        | none => none
                        | some cell => some (⟨li, period, cell, parseNumeric cell, c⟩ : Record)) := by
          apply filterMap_congr_mem
          intro c hc
          have hcge : k + 1 ≤ c := ((mem_natRange c (k + 1) n).mp hc).1
          have hkc : ¬ k = c := by omega
          rw [show alGet ((k, v) :: t) c = alGet t c from by simp [alGet, hkc]]
        rw [hcong, ih (k + 1) t (List.pairwise_cons.mp hsort).2 ?_, List.filterMap_cons]
        intro kv2 hkv2
        have h1 : k < kv2.1 := (List.pairwise_cons.mp hsort).1 kv2 hkv2
        have h2 : k ≤ kv2.1 ∧ kv2.1 < k + (n + 1) :=
          hb kv2 (List.mem_cons.mpr (Or.inr hkv2))
        omega
      · have hgetnone : alGet ((k, v) :: t) s = none := by
          apply alGet_eq_none_of_forall_ne
          intro kv2 hkv2
          rcases List.mem_cons.mp hkv2 with h | h
          · rw [h]
            exact fun hh : k = s => hks hh
          · have hlt : k < kv2.1 := (List.pairwise_cons.mp hsort).1 kv2 h
            omega
        simp only [hgetnone]
        refine ih (s + 1) ((k, v) :: t) hsort ?_
        intro kv2 hkv2
        rcases List.mem_cons.mp hkv2 with h | h
        · rw [h]
          show s + 1 ≤ k ∧ k < s + 1 + n
          omega
        · have hlt : k < kv2.1 := (List.pairwise_cons.mp hsort).1 kv2 h
          have h2 : s ≤ kv2.1 ∧ kv2.1 < s + (n + 1) :=
            hb kv2 (List.mem_cons.mpr (Or.inr h))
          omega

lemma rowRecords_filterMap (g : Grid) (m : List (ℕ × String)) (r : ℕ) (li : String)
    (hsort : List.Pairwise (fun a b : ℕ × String => a.1 < b.1) m)
    (hb : ∀ kv ∈ m, 1 ≤ kv.1 ∧ kv.1 < g.ncols)
    (hv : ∀ kv ∈ m, kv.2 ≠ "")
    (hL : rowLabel g r = some li) :
    rowRecords g m r = m.filterMap (rowEmit g r li) := by
  simp only [rowRecords, hL]
  rw [range_filterMap_rowfun g r li (g.ncols - 1) 1 m hsort ?_]
  · apply filterMap_congr_mem
    intro kv hkv
    rw [if_neg (hv kv hkv)]
    rfl
  · intro kv hkv
    have := hb kv hkv
    omega

lemma nestedCellStep_emit (g : Grid) (r : ℕ) (li : String) (d : Nested) (cp : ℕ × String) :
    nestedCellStep g r li d cp
      = match rowEmit g r li cp with
        | none => d
        | some rec => insertRecord d rec := by
  unfold nestedCellStep rowEmit
  cases cleanCell (g.iat r cp.1) with
  | none => rfl
  | some cell => rfl

lemma foldl_nestedCellStep (g : Grid) (r : ℕ) (li : String) (m : List (ℕ × String)) :
    ∀ d : Nested,
      m.foldl (nestedCellStep g r li) d = (m.filterMap (rowEmit g r li)).foldl insertRecord d := by
  induction m with
  | nil => intro d; rfl
  | cons cp t ih =>
    intro d
    rw [List.foldl_cons, List.filterMap_cons, nestedCellStep_emit]
    cases h : rowEmit g r li cp with
    | none =>
      simp only [h]
      exact ih d
    | some rec =>
      simp only [h, List.foldl_cons]
      exact ih (insertRecord d rec)

lemma nestedRow_eq_foldl (g : Grid) (m : List (ℕ × String)) (r : ℕ)
    (hsort : List.Pairwise (fun a b : ℕ × String => a.1 < b.1) m)
    (hb : ∀ kv ∈ m, 1 ≤ kv.1 ∧ kv.1 < g.ncols)
    (hv : ∀ kv ∈ m, kv.2 ≠ "") (d : Nested) :
    nestedRow g m d r = (rowRecords g m r).foldl insertRecord d := by
  cases hL : rowLabel g r with
  | none =>
    simp only [nestedRow, rowRecords, hL]
    rfl
  | some li =>
    simp only [nestedRow, hL]
    rw [foldl_nestedCellStep, ← rowRecords_filterMap g m r li hsort hb hv hL]

lemma foldl_nestedRow (g : Grid) (m : List (ℕ × String))
    (hsort : List.Pairwise (fun a b : ℕ × String => a.1 < b.1) m)
    (hb : ∀ kv ∈ m, 1 ≤ kv.1 ∧ kv.1 < g.ncols)
    (hv : ∀ kv ∈ m, kv.2 ≠ "") (rows : List ℕ) :
    ∀ d : Nested,
      rows.foldl (nestedRow g m) d = (rows.flatMap (rowRecords g m)).foldl insertRecord d := by
  induction rows with
  | nil => intro d; rfl
  | cons r t ih =>
    intro d
    rw [List.foldl_cons, List.flatMap_cons, List.foldl_append,
      nestedRow_eq_foldl g m r hsort hb hv d, ih]

/-- Claim C10: for a grid whose header is located, the nested-dict parser
and the long-form parser agree — `[p][l]` holds a value exactly when the
long table has a record for `(p, l)`, and that value is the last such
record's (row-major order) parsed float when it parsed, its cleaned raw
value otherwise. -/
theorem nested_long_agreement (g : Grid) (startRow : ℕ)
    (_hfind : findIncomeStatementStart g = some startRow) (p l : String) :
    nestedGet (parseNested g startRow) p l
      = (lastRecordFor
          (extractRecords g startRow (extractColToPeriod (buildPeriodLabels g startRow))) p l
        ).map storedOfRecord := by
  have hsort := colToPeriodAux_sorted (buildPeriodLabels g startRow) 0
  have hlen := buildPeriodLabels_length g startRow
  have hb : ∀ kv ∈ extractColToPeriod (buildPeriodLabels g startRow),
      1 ≤ kv.1 ∧ kv.1 < g.ncols := by
    intro kv hkv
    have := colToPeriodAux_key_bounds (buildPeriodLabels g startRow) 0 kv.1 kv.2 hkv
    omega
  have hv : ∀ kv ∈ extractColToPeriod (buildPeriodLabels g startRow), kv.2 ≠ "" :=
    fun kv hkv => colToPeriodAux_vals_ne (buildPeriodLabels g startRow) 0 kv hkv
  show nestedGet
      ((rowRange g startRow).foldl
        (nestedRow g (extractColToPeriod (buildPeriodLabels g startRow)))
        (initPeriods (extractColToPeriod (buildPeriodLabels g startRow)))) p l = _
  rw [foldl_nestedRow g (extractColToPeriod (buildPeriodLabels g startRow)) hsort hb hv
    (rowRange g startRow) (initPeriods (extractColToPeriod (buildPeriodLabels g startRow)))]
  rw [nestedGet_foldl_insert]
  show (match lastRecordFor
        (extractRecords g startRow (extractColToPeriod (buildPeriodLabels g startRow))) p l with
      | some rec => some (storedOfRecord rec)
      | none =>
        nestedGet (initPeriods (extractColToPeriod (buildPeriodLabels g startRow))) p l) = _
  rw [nestedGet_initPeriods]
  cases lastRecordFor
      (extractRecords g startRow (extractColToPeriod (buildPeriodLabels g startRow))) p l with
  | none => rfl
  | some rec => rfl

/-- Witness for `nested_long_agreement`: a sheet with a duplicated
"Revenue" row, whose later occurrence overwrites the earlier one in the
nested form. -/
theorem nested_long_agreement_witness :
    findIncomeStatementStart gridDup = some 0
    ∧ nestedGet (parseNested gridDup 0) "FY23" "Revenue"
        = (lastRecordFor
            (extractRecords gridDup 0 (extractColToPeriod (buildPeriodLabels gridDup 0)))
            "FY23" "Revenue").map storedOfRecord :=
  ⟨by decide, nested_long_agreement gridDup 0 (by decide) "FY23" "Revenue"⟩

end Forge
